import Mathlib

/-!
Shallow embedding of the RabidArchiver manifest store (SQLite `files` table,
`internal/db/db.go` and the scanner's `saveFileInfo`) and of the Bleve-backed
full-text index (`internal/db/db.go`, `BleveIndexer`), together with theorems
settling the frozen claims about them.

Modelling conventions:
- SQLite rows are Lean structures; nullable columns are `Option`-typed.
- Go's `database/sql` scanning of a NULL column into a Go `string`/`int64`
  destination fails; this is modelled by `scanRow` / `GetStats` returning
  `Except.error`.
- Timestamps are opaque integers (`Int`), threaded explicitly where the Go
  code calls `time.Now()`.
- The Bleve index is modelled as an association list from document id to the
  stored document; `bleve.Index.Index` replaces by key, `Delete` removes by
  key (bleve v2's default scorch backend reports no error when the id is
  absent), and a batch commits all of its operations at once.
- Bleve's per-field analyzers are modelled as: standard analyzer =
  alphanumeric tokenization plus ASCII lower-casing (stop-word removal
  omitted); keyword analyzer = whole value as a single token.  Relevance
  scoring and snippet extraction are abstracted away: `Search` returns the
  hit documents in index order, paginated exactly as the Go code paginates.
-/

namespace Archiver

/-- Decidable equality for `Except`, used to state results of the fallible
operations concretely. -/
instance {ε α : Type} [DecidableEq ε] [DecidableEq α] :
    DecidableEq (Except ε α) := fun a b =>
  match a, b with
  | .ok x, .ok y =>
    if h : x = y then .isTrue (by rw [h]) else .isFalse (by simp [h])
  | .error x, .error y =>
    if h : x = y then .isTrue (by rw [h]) else .isFalse (by simp [h])
  | .ok _, .error _ => .isFalse (by simp)
  | .error _, .ok _ => .isFalse (by simp)

/-- ASCII lower-casing of one character, as SQLite's default `LIKE` folding
and Go's `strings.ToLower` both do on the ASCII range. -/
def lowerChar (c : Char) : Char :=
  if 'A' ≤ c ∧ c ≤ 'Z' then Char.ofNat (c.toNat + 32) else c

/-- ASCII lower-casing of a string (model of `strings.ToLower` on ASCII). -/
def lowerStr (s : String) : String :=
  String.mk (s.data.map lowerChar)

/-- Splits a character list into maximal alphanumeric runs (tokenizer of the
model of bleve's standard analyzer); `cur` accumulates the current run in
reverse. -/
def tokenizeAux : List Char → List Char → List (List Char)
  | cur, [] => if cur = [] then [] else [cur.reverse]
  | cur, c :: cs =>
    if c.isAlphanum then tokenizeAux (c :: cur) cs
    else if cur = [] then tokenizeAux [] cs
    else cur.reverse :: tokenizeAux [] cs

/-- Model of bleve's standard analyzer: alphanumeric tokens, lower-cased. -/
def stdTokens (s : String) : List String :=
  (tokenizeAux [] s.data).map (fun t => String.mk (t.map lowerChar))

/-- Drops trailing `/` characters (step of Go's `filepath.Base`). -/
def dropTrailingSlashes (cs : List Char) : List Char :=
  (cs.reverse.dropWhile (fun c => c = '/')).reverse

/-- Model of Go's `filepath.Base`: last element of the path, trailing
slashes removed; `"."` for the empty path, `"/"` for all-slash paths. -/
def goBase (p : String) : String :=
  if p = "" then "."
  else
    let cs := dropTrailingSlashes p.data
    if cs = [] then "/"
    else String.mk (cs.reverse.takeWhile (fun c => c ≠ '/')).reverse

/-- Helper for `goExt`: walks the reversed path, accumulating the suffix seen
so far, and stops at the final dot of the final path element. -/
def extRev : List Char → List Char → String
  | _, [] => ""
  | suf, c :: rest =>
    if c = '/' then ""
    else if c = '.' then String.mk ('.' :: suf)
    else extRev (c :: suf) rest

/-- Model of Go's `filepath.Ext`: the suffix beginning at the final dot in
the final slash-separated element of the path; empty if there is no dot. -/
def goExt (p : String) : String :=
  extRev [] p.data.reverse

/-! ## Manifest store: the SQLite `files` table -/

/-- The data carried by the scanner into `saveFileInfo`
(`scan.FileInfo` in the source). -/
structure FileInfo where
  Path : String
  RelativePath : String
  Size : Int
  ModTime : Int
  IsDir : Bool
  ContentType : String
  SHA256 : String
deriving DecidableEq

/-- One row of the `files` table, schema from the scanner's `initDB`:
`id INTEGER PRIMARY KEY AUTOINCREMENT`, `path`/`relative_path`/`size`/
`mod_time`/`is_dir` NOT NULL, the remaining columns nullable with
`processed BOOLEAN DEFAULT FALSE`. -/
structure Row where
  id : Int
  path : String
  relative_path : String
  size : Int
  mod_time : Int
  is_dir : Bool
  content_type : Option String
  sha256 : Option String
  processed : Bool
  uploaded_url : Option String
  upload_time : Option Int
  summary : Option String
deriving DecidableEq

/-- The `files` table plus the AUTOINCREMENT sequence: `nextId` is strictly
larger than every rowid ever handed out, so ids are never reused. -/
structure Manifest where
  rows : List Row
  nextId : Int
deriving DecidableEq

/-- The row inserted by `saveFileInfo`'s
`INSERT OR REPLACE INTO files (path, relative_path, size, mod_time, is_dir,
content_type, sha256) VALUES (...)`: unspecified columns take their schema
defaults (`processed` FALSE, the rest NULL), and the fresh AUTOINCREMENT id. -/
def insertedRow (id : Int) (info : FileInfo) : Row where
  id := id
  path := info.Path
  relative_path := info.RelativePath
  size := info.Size
  mod_time := info.ModTime
  is_dir := info.IsDir
  content_type := some info.ContentType
  sha256 := some info.SHA256
  processed := false
  uploaded_url := none
  upload_time := none
  summary := none

/-- `saveFileInfo` (scanner): SQLite `INSERT OR REPLACE` on the UNIQUE(path)
constraint deletes any existing row with the same `path` and inserts a brand
new row under the next AUTOINCREMENT id. -/
def saveFileInfo (m : Manifest) (info : FileInfo) : Manifest where
  rows := m.rows.filter (fun r => r.path ≠ info.Path) ++ [insertedRow m.nextId info]
  nextId := m.nextId + 1

/-- The row mutation performed by `UpdateFileStatus`'s
`UPDATE files SET processed = ?, uploaded_url = ?, upload_time = ?,
summary = ? WHERE id = ?`; rows with a different id are untouched, and an
`UPDATE` matching zero rows is not an error. -/
def updateRows (rows : List Row) (id : Int) (processed : Bool)
    (uploadedURL : String) (summary : String) (now : Int) : List Row :=
  rows.map fun r =>
    if r.id = id then
      { r with
        processed := processed
        uploaded_url := some uploadedURL
        upload_time := some now
        summary := some summary }
    else r

/-- `DB.UpdateFileStatus`: executes the UPDATE and returns its error; SQL
UPDATE succeeds (affecting zero rows) when the id is absent, and the code
never inspects the affected-row count. -/
def UpdateFileStatus (m : Manifest) (id : Int) (processed : Bool)
    (uploadedURL : String) (summary : String) (now : Int) :
    Except String Manifest :=
  .ok { m with rows := updateRows m.rows id processed uploadedURL summary now }

/-- The statistics assembled by `DB.GetStats`. -/
structure Stats where
  totalFiles : Int
  totalDirs : Int
  processedFiles : Int
  totalSize : Int
deriving DecidableEq

/-- `SELECT SUM(size) ...`: SQL SUM over zero rows is NULL. -/
def sumSizes (rows : List Row) : Option Int :=
  match rows with
  | [] => none
  | _ => some (rows.foldl (fun a r => a + r.size) 0)

/-- Error produced by `database/sql` when scanning a NULL aggregate into the
`int64` destination in `GetStats`. -/
def nullIntScanError : String :=
  "sql: Scan error on column index 0: converting NULL to int64 is unsupported"

/-- `DB.GetStats`: three COUNT queries (which cannot be NULL) and then
`SELECT SUM(size) FROM files WHERE is_dir = FALSE` scanned into an `int64`;
the last scan fails when the table holds no non-directory rows. -/
def GetStats (m : Manifest) : Except String Stats :=
  let nonDir := m.rows.filter (fun r => !r.is_dir)
  match sumSizes nonDir with
  | none => .error nullIntScanError
  | some s =>
    .ok
      { totalFiles := (nonDir.length : Int)
        totalDirs := ((m.rows.filter (fun r => r.is_dir)).length : Int)
        processedFiles := ((nonDir.filter (fun r => r.processed)).length : Int)
        totalSize := s }

/-- `likeStar f t` tests whether `f` accepts some suffix of `t`: a `%`
wildcard consumes an arbitrary run of text characters. -/
def likeStar (f : List Char → Bool) : List Char → Bool
  | [] => f []
  | c :: cs => f (c :: cs) || likeStar f cs

/-- SQLite `LIKE`: `%` matches any run, `_` matches one character, ordinary
characters match up to the default ASCII case folding
(`PRAGMA case_sensitive_like` is off). -/
def likeMatch : List Char → List Char → Bool
  | [], t => t.isEmpty
  | p :: ps, t =>
    if p = '%' then likeStar (likeMatch ps) t
    else
      match t with
      | [] => false
      | c :: cs => (if p = '_' then true else lowerChar p == lowerChar c) && likeMatch ps cs

/-- Literal starts-with test on character lists (used to phrase which paths
a wildcard-free LIKE pattern selects). -/
def listStarts : List Char → List Char → Bool
  | [], _ => true
  | _ :: _, [] => false
  | a :: as, b :: bs => a == b && listStarts as bs

/-- Whether a string's final character is `/` (the `strings.HasSuffix`
check in `GetFilesInDirectory`). -/
def endsWithSlash (s : String) : Bool :=
  match s.data.getLast? with
  | some c => c = '/'
  | none => false

/-- The directory argument with `/` appended when not already present. -/
def dirSlash (directory : String) : String :=
  if endsWithSlash directory then directory else directory ++ "/"

/-- The LIKE pattern built by `GetFilesInDirectory`:
`directory` + (`/` if missing) + `%`. -/
def dirPattern (directory : String) : String :=
  dirSlash directory ++ "%"

/-- Lexicographic code-point order on character lists: the order SQLite's
BINARY collation gives to the UTF-8 encodings of the two strings. -/
def charListLe : List Char → List Char → Bool
  | [], _ => true
  | _ :: _, [] => false
  | a :: as, b :: bs =>
    if a.toNat < b.toNat then true
    else if b.toNat < a.toNat then false
    else charListLe as bs

/-- Ordering of rows by `path` (SQL `ORDER BY path`, BINARY collation). -/
def rowPathLe (a b : Row) : Prop :=
  charListLe a.path.data b.path.data = true

instance : DecidableRel rowPathLe := fun a b =>
  inferInstanceAs (Decidable (charListLe a.path.data b.path.data = true))

instance : IsTotal Row rowPathLe :=
  ⟨fun a b => by
    have h : ∀ x y : List Char, charListLe x y = true ∨ charListLe y x = true := by
      intro x
      induction x with
      | nil => intro y; left; rfl
      | cons a as ih =>
        intro y
        cases y with
        | nil => right; rfl
        | cons b bs =>
          rcases Nat.lt_trichotomy a.toNat b.toNat with h | h | h
          · left; simp [charListLe, h]
          · have h1 : ¬ a.toNat < b.toNat := by omega
            have h2 : ¬ b.toNat < a.toNat := by omega
            rcases ih bs with h3 | h3
            · left; simp [charListLe, h1, h2, h3]
            · right; simp [charListLe, h1, h2, h3]
          · right; simp [charListLe, h]
    exact h a.path.data b.path.data⟩

instance : IsTrans Row rowPathLe :=
  ⟨fun a b c hab hbc => by
    have h : ∀ x y z : List Char, charListLe x y = true → charListLe y z = true →
        charListLe x z = true := by
      intro x
      induction x with
      | nil => intro y z _ _; rfl
      | cons a as ih =>
        intro y z hxy hyz
        cases y with
        | nil => simp [charListLe] at hxy
        | cons b bs =>
          cases z with
          | nil => simp [charListLe] at hyz
          | cons d ds =>
            simp only [charListLe] at hxy hyz ⊢
            by_cases h1 : a.toNat < b.toNat
            · by_cases h2 : b.toNat < d.toNat
              · have h3 : a.toNat < d.toNat := by omega
                simp [h3]
              · simp only [if_neg h2] at hyz
                by_cases h4 : d.toNat < b.toNat
                · simp [h4] at hyz
                · have h5 : a.toNat < d.toNat := by omega
                  simp [h5]
            · simp only [if_neg h1] at hxy
              by_cases h2 : b.toNat < a.toNat
              · simp [h2] at hxy
              · simp only [if_neg h2] at hxy
                by_cases h3 : b.toNat < d.toNat
                · have h4 : a.toNat < d.toNat := by omega
                  simp [h4]
                · simp only [if_neg h3] at hyz
                  by_cases h5 : d.toNat < b.toNat
                  · simp [h5] at hyz
                  · simp only [if_neg h5] at hyz
                    have h6 : ¬ a.toNat < d.toNat := by omega
                    have h7 : ¬ d.toNat < a.toNat := by omega
                    simp only [if_neg h6, if_neg h7]
                    exact ih bs ds hxy hyz
    exact h a.path.data b.path.data c.path.data hab hbc⟩

/-- Ordering of rows by `id` (SQL `ORDER BY id` in `BuildIndex`). -/
def rowIdLe (a b : Row) : Prop := a.id ≤ b.id

instance : DecidableRel rowIdLe := fun a b =>
  inferInstanceAs (Decidable (a.id ≤ b.id))

instance : IsTotal Row rowIdLe := ⟨fun a b => le_total a.id b.id⟩

instance : IsTrans Row rowIdLe := ⟨fun _ _ _ h h' => le_trans h h'⟩

/-- `DB.GetFilesInDirectory`: `WHERE path LIKE ? ORDER BY path` with the
pattern of `dirPattern`. -/
def GetFilesInDirectory (m : Manifest) (directory : String) : List Row :=
  List.insertionSort rowPathLe
    (m.rows.filter (fun r => likeMatch (dirPattern directory).data r.path.data))

/-! ## Index engine: the Bleve-backed `BleveIndexer` -/

/-- `db.IndexConfig`. -/
structure IndexConfig where
  IndexDir : String
  IndexSummaries : Bool
deriving DecidableEq

/-- `db.FileStatus` as scanned out of a row by Go's `database/sql`
(`UploadTime` is an `sql.NullTime`, hence optional; every other column is
scanned into a non-nullable Go value). -/
structure FileStatus where
  ID : Int
  Path : String
  RelativePath : String
  Size : Int
  ModTime : Int
  IsDir : Bool
  ContentType : String
  SHA256 : String
  Processed : Bool
  UploadedURL : String
  UploadTime : Option Int
  Summary : String
deriving DecidableEq

/-- `db.FileIndex`: the indexed document. -/
structure FileIndex where
  ID : String
  Path : String
  RelativePath : String
  Name : String
  Extension : String
  Size : Int
  ModTime : Int
  IsDir : Bool
  ContentType : String
  Summary : String
  UploadedURL : String
  UpdatedAt : Int
deriving DecidableEq

/-- The Bleve index modelled as an association list from document id to the
stored document (at most one entry per id in any index the operations
produce). -/
abbrev Index := List (String × FileIndex)

/-- The id column of the index. -/
def keys (idx : Index) : List String := idx.map Prod.fst

/-- `bleve.Index.Index doc.ID doc` (also the effect of one batched op):
replaces the document stored under the id, or appends it when absent. -/
def insertDoc (idx : Index) (k : String) (d : FileIndex) : Index :=
  idx.filter (fun e => e.1 ≠ k) ++ [(k, d)]

/-- `bleve.Index.Delete id` on the v2 default (scorch) backend: removes the
document if present; deleting an absent id is not an error. -/
def deleteDoc (idx : Index) (k : String) : Index :=
  idx.filter (fun e => e.1 ≠ k)

/-- `BleveIndexer.GetDocumentCount` / `bleve.Index.DocCount`. -/
def GetDocumentCount (idx : Index) : Nat := idx.length

/-- The document constructed by `IndexFile` (and, identically, by the loop
body of `BuildIndex`): `ID` is `fmt.Sprintf("%d", file.ID)`, `Name` is
`filepath.Base(file.Path)`, `Extension` is
`strings.ToLower(filepath.Ext(file.Path))` — computed the same way whether
or not the record is a directory — and `Summary` is included only when
summaries are configured and the record's summary is non-empty. -/
def mkDoc (cfg : IndexConfig) (file : FileStatus) (now : Int) : FileIndex where
  ID := toString file.ID
  Path := file.Path
  RelativePath := file.RelativePath
  Name := goBase file.Path
  Extension := lowerStr (goExt file.Path)
  Size := file.Size
  ModTime := file.ModTime
  IsDir := file.IsDir
  ContentType := file.ContentType
  Summary := if cfg.IndexSummaries ∧ file.Summary ≠ "" then file.Summary else ""
  UploadedURL := file.UploadedURL
  UpdatedAt := now

/-- `BleveIndexer.IndexFile`: rejects a nil record, otherwise builds the
document and writes/replaces it keyed by the decimal id string. -/
def IndexFile (cfg : IndexConfig) (idx : Index) (file : Option FileStatus)
    (now : Int) : Except String Index :=
  match file with
  | none => .error "cannot index nil file"
  | some f =>
    let doc := mkDoc cfg f now
    .ok (insertDoc idx doc.ID doc)

/-- `BleveIndexer.RemoveFile`: `idx.index.Delete(fmt.Sprintf("%d", fileID))`. -/
def RemoveFile (idx : Index) (fileID : Int) : Except String Index :=
  .ok (deleteDoc idx (toString fileID))

/-- Whether every column that `rows.Scan` targets with a Go `string`
destination is non-NULL, which is what scanning a row requires. -/
def scanOk (r : Row) : Bool :=
  r.content_type.isSome && r.sha256.isSome && r.uploaded_url.isSome &&
    r.summary.isSome

/-- The `FileStatus` a successful scan of the row produces. -/
def rowFile (r : Row) : FileStatus where
  ID := r.id
  Path := r.path
  RelativePath := r.relative_path
  Size := r.size
  ModTime := r.mod_time
  IsDir := r.is_dir
  ContentType := r.content_type.getD ""
  SHA256 := r.sha256.getD ""
  Processed := r.processed
  UploadedURL := r.uploaded_url.getD ""
  UploadTime := r.upload_time
  Summary := r.summary.getD ""

/-- The error `rows.Scan` reports on the row: `database/sql` fails on the
first NULL column whose destination is a Go `string` (column order:
content_type, sha256, uploaded_url, summary). -/
def scanErrMsg (r : Row) : String :=
  match r.content_type with
  | none => "sql: Scan error on column index 6: converting NULL to string is unsupported"
  | some _ =>
  match r.sha256 with
  | none => "sql: Scan error on column index 7: converting NULL to string is unsupported"
  | some _ =>
  match r.uploaded_url with
  | none => "sql: Scan error on column index 9: converting NULL to string is unsupported"
  | some _ =>
  match r.summary with
  | none => "sql: Scan error on column index 11: converting NULL to string is unsupported"
  | some _ => ""

/-- `rows.Scan` into the twelve `FileStatus` destinations. -/
def scanRow (r : Row) : Except String FileStatus :=
  if scanOk r then .ok (rowFile r) else .error (scanErrMsg r)

/-- The (id, document) pair `BuildIndex` stages for the row. -/
def rowOp (cfg : IndexConfig) (now : Int) (r : Row) : String × FileIndex :=
  let d := mkDoc cfg (rowFile r) now
  (d.ID, d)

/-- `bleve.Index.Batch`: commits every staged operation of the batch. -/
def applyBatch (idx : Index) (b : List (String × FileIndex)) : Index :=
  b.foldl (fun i e => insertDoc i e.1 e.2) idx

/-- `batchSize := 100` in `BuildIndex`. -/
def batchSize : Nat := 100

/-- The row loop of `BuildIndex`: scans each row, stages its document in the
current batch, commits the batch each time the running count reaches a
multiple of `batchSize`, commits a non-empty final batch, and on a scan
failure returns the running count and the error, leaving uncommitted staged
documents out of the index. -/
def buildLoop (cfg : IndexConfig) (now : Int) :
    List Row → Index → List (String × FileIndex) → Nat →
      Nat × Option String × Index
  | [], idx, batch, count =>
    (count, none, if batch.length > 0 then applyBatch idx batch else idx)
  | r :: rs, idx, batch, count =>
    match scanRow r with
    | .error e => (count, some e, idx)
    | .ok f =>
      let batch2 := batch ++ [(toString f.ID, mkDoc cfg f now)]
      let count2 := count + 1
      if count2 % batchSize = 0 then
        buildLoop cfg now rs (applyBatch idx batch2) [] count2
      else
        buildLoop cfg now rs idx batch2 count2

/-- `BleveIndexer.BuildIndex`: streams the whole `files` table
`ORDER BY id` through `buildLoop` starting from an empty batch.  Note that
it never deletes documents already in the index. -/
def BuildIndex (cfg : IndexConfig) (m : Manifest) (idx : Index) (now : Int) :
    Nat × Option String × Index :=
  buildLoop cfg now (List.insertionSort rowIdLe m.rows) idx [] 0

/-! ## Query engine: `BleveIndexer.Search` -/

/-- `db.SearchRequest`. -/
structure SearchRequest where
  Query : String
  Limit : Int
  Offset : Int
  SortBy : String
  SortDesc : Bool
  FieldName : String
deriving DecidableEq

/-- The stored value of a named text or keyword field of a document (the
only fields a field-scoped match query of this index can hit). -/
def fieldValue (f : String) (d : FileIndex) : Option String :=
  if f = "Path" then some d.Path
  else if f = "RelativePath" then some d.RelativePath
  else if f = "Name" then some d.Name
  else if f = "Summary" then some d.Summary
  else if f = "Extension" then some d.Extension
  else if f = "ContentType" then some d.ContentType
  else none

/-- Fields mapped with the keyword analyzer in `createIndexMapping`. -/
def isKeywordField (f : String) : Bool :=
  f = "Extension" || f = "ContentType"

/-- Analysis of a text with the analyzer of the named field: keyword fields
keep the whole value as one token, the other fields use the standard
analyzer. -/
def analyzeFor (f : String) (s : String) : List String :=
  if isKeywordField f then [s] else stdTokens s

/-- The indexed tokens of the named field of a document. -/
def fieldTerms (f : String) (d : FileIndex) : List String :=
  match fieldValue f d with
  | none => []
  | some v => analyzeFor f v

/-- Whether a field-scoped match query (`bleve.NewMatchQuery` +
`SetField`, default OR semantics) hits the document: some token of the
analyzed query text occurs among the tokens of the named field — and of
that field only. -/
def matchFieldHit (f q : String) (d : FileIndex) : Bool :=
  (analyzeFor f q).any fun t => (fieldTerms f d).contains t

/-- All indexed tokens of a document across its `IncludeInAll` fields (the
`_all` scope a query-string query searches). -/
def docTerms (d : FileIndex) : List String :=
  stdTokens d.Path ++ stdTokens d.RelativePath ++ stdTokens d.Name ++
    stdTokens d.Summary ++ [d.Extension, d.ContentType]

/-- Whether a query-string query over all fields hits the document (plain
terms ORed together). -/
def queryStringHit (q : String) (d : FileIndex) : Bool :=
  (stdTokens q).any fun t => (docTerms d).contains t

/-- The hit set of `Search`'s three-way query construction: match-all for an
empty query, field-scoped match when `FieldName` is set, query-string over
all fields otherwise.  Hits are kept in index order (relevance ranking is
abstracted away; hit membership is the modelled contract). -/
def searchHits (idx : Index) (req : SearchRequest) : Index :=
  if req.Query = "" then idx
  else if req.FieldName ≠ "" then
    idx.filter fun e => matchFieldHit req.FieldName req.Query e.2
  else
    idx.filter fun e => queryStringHit req.Query e.2

/-- `BleveIndexer.Search`: defaults the limit to 10 when non-positive, then
pages the hit set with `From := Offset` and `Size := limit`. -/
def Search (idx : Index) (req : SearchRequest) : Except String Index :=
  let limit : Int := if req.Limit ≤ 0 then 10 else req.Limit
  .ok (((searchHits idx req).drop req.Offset.toNat).take limit.toNat)

/-! ## Concrete values used by counterexamples and witnesses -/

/-- A scanner-shaped record for path `/d/a.txt`. -/
def infoA : FileInfo :=
  ⟨"/d/a.txt", "a.txt", 100, 1, false, "text/plain", "ab12"⟩

/-- The manifest after upserting `infoA` and then marking its row processed
via the status update (all columns written out). -/
def m2val : Manifest :=
  ⟨[⟨1, "/d/a.txt", "a.txt", 100, 1, false, some "text/plain", some "ab12",
      true, some "http://u", some 5, some "s"⟩], 2⟩

/-- An index configuration with summary indexing enabled. -/
def cfgS : IndexConfig := ⟨"/idx", true⟩

/-- A directory record whose name contains a dot. -/
def dirRec : FileStatus :=
  ⟨7, "/data/archive.old", "archive.old", 0, 0, true, "", "", false, "", none, ""⟩

/-- A file record whose final path element contains no dot. -/
def noExtRec : FileStatus :=
  ⟨8, "/d/README", "README", 4, 0, false, "text/plain", "", false, "", none, ""⟩

/-- A record with summary "invoice report" and path `/docs/invoice.pdf`. -/
def invoiceRec : FileStatus :=
  ⟨3, "/docs/invoice.pdf", "invoice.pdf", 10, 0, false, "application/pdf",
    "", true, "", none, "invoice report"⟩

/-- The index holding only the document derived from `invoiceRec`. -/
def invoiceIdx : Index := [("3", mkDoc cfgS invoiceRec 0)]

/-- A record whose summary holds the term "finance", unique to it below. -/
def finRec : FileStatus :=
  ⟨1, "/d/a.txt", "a.txt", 100, 1, false, "text/plain", "", true, "", none,
    "quarterly finance notes"⟩

/-- A second record without the term "finance" anywhere. -/
def otherRec : FileStatus :=
  ⟨2, "/d/b.txt", "b.txt", 50, 1, false, "text/plain", "", true, "", none,
    "misc"⟩

/-- A two-document index for the removal scenario. -/
def idx8 : Index := [("1", mkDoc cfgS finRec 0), ("2", mkDoc cfgS otherRec 0)]

/-- A fully scannable row (every nullable column non-NULL). -/
def rowOK : Row :=
  ⟨1, "/d/a.txt", "a.txt", 100, 1, false, some "text/plain", some "ab",
    false, some "", some 3, some "sum"⟩

/-- A row whose `summary` column is NULL, as every freshly scanned row has:
scanning it into the Go `string` destination fails. -/
def rowBad : Row :=
  ⟨2, "/d/b.txt", "b.txt", 5, 1, false, some "", some "", false, some "",
    none, none⟩

/-- An index holding one document under id "999", an id no manifest row has. -/
def staleIdx : Index := [("999", mkDoc cfgS otherRec 0)]

/-- A row lexically under `/foo`. -/
def rowFoo : Row :=
  ⟨1, "/foo/x.txt", "x.txt", 1, 1, false, some "", some "", false, none,
    none, none⟩

/-- A row under `/axb`, which the pattern built from directory `/a_b`
nevertheless matches (`_` wildcard). -/
def rowWild : Row :=
  ⟨2, "/axb/f.txt", "f.txt", 1, 1, false, some "", some "", false, none,
    none, none⟩

/-- The single row of `m2val`. -/
def r1 : Row :=
  ⟨1, "/d/a.txt", "a.txt", 100, 1, false, some "text/plain", some "ab12",
    true, some "http://u", some 5, some "s"⟩

/-! ## Theorems -/

/-- Upserting a path leaves exactly the freshly inserted row under that
path: every previously stored row with the path is replaced. -/
theorem saveFileInfo_filter_path (m : Manifest) (info : FileInfo) :
    (saveFileInfo m info).rows.filter (fun r => r.path = info.Path) =
      [insertedRow m.nextId info] := by
  unfold saveFileInfo
  simp only [List.filter_append, List.filter_filter]
  have h1 : m.rows.filter
      (fun a => decide (a.path = info.Path) && decide (a.path ≠ info.Path)) = [] := by
    apply List.filter_eq_nil_iff.mpr
    intro a _
    by_cases h : a.path = info.Path <;> simp [h]
  rw [h1]
  simp [insertedRow]

/-- C2 (counterexample): starting from an empty store, upsert `/d/a.txt`
(row id 1), mark it processed with uploaded URL and summary, then upsert the
identical content again.  The claim says id, processed, uploadedURL,
uploadTime and summary are left unchanged; in fact `INSERT OR REPLACE`
deletes the row and inserts a fresh one, so the surviving row has the new id
2, `processed = false` and NULL uploadedURL/uploadTime/summary. -/
theorem C2_counterexample :
    UpdateFileStatus (saveFileInfo ⟨[], 1⟩ infoA) 1 true "http://u" "s" 5 =
      .ok m2val ∧
    (saveFileInfo m2val infoA).rows =
      [⟨2, "/d/a.txt", "a.txt", 100, 1, false, some "text/plain", some "ab12",
        false, none, none, none⟩] := by
  decide

/-- C2 (amended): re-upserting an existing path deletes the old row and
inserts a brand new one: the supplied fields (path, relativePath, size,
modTime, isDir, contentType, sha256) come from the insert while processed,
uploadedURL, uploadTime and summary are reset to their schema defaults and a
fresh id — the next AUTOINCREMENT value, never previously used and never
reused — is assigned; rows under other paths are untouched. -/
theorem C2_amended (m : Manifest) (info : FileInfo)
    (hfresh : ∀ r ∈ m.rows, r.id < m.nextId) :
    (saveFileInfo m info).rows.filter (fun r => r.path = info.Path) =
      [insertedRow m.nextId info] ∧
    (∀ r ∈ m.rows, r.path ≠ info.Path → r ∈ (saveFileInfo m info).rows) ∧
    (∀ r ∈ m.rows, r.id ≠ m.nextId) ∧
    (saveFileInfo m info).nextId = m.nextId + 1 ∧
    (∀ r ∈ (saveFileInfo m info).rows, r.id < (saveFileInfo m info).nextId) := by
  refine ⟨saveFileInfo_filter_path m info, ?_, ?_, rfl, ?_⟩
  · intro r hr hne
    unfold saveFileInfo
    exact List.mem_append_left _ (List.mem_filter.mpr ⟨hr, by simpa using hne⟩)
  · intro r hr
    exact Int.ne_of_lt (hfresh r hr)
  · intro r hr
    have hn : (saveFileInfo m info).nextId = m.nextId + 1 := rfl
    rw [hn]
    unfold saveFileInfo at hr
    rcases List.mem_append.mp hr with h | h
    · have := hfresh r (List.mem_of_mem_filter h)
      omega
    · rw [List.mem_singleton] at h
      subst h
      simp [insertedRow]

/-- C2 (witness): the amended statement at the one-row manifest `m2val`. -/
theorem C2_witness :
    (∀ r ∈ m2val.rows, r.id < m2val.nextId) ∧
    (saveFileInfo m2val infoA).rows.filter (fun r => r.path = infoA.Path) =
      [insertedRow m2val.nextId infoA] :=
  ⟨by decide, (C2_amended m2val infoA (by decide)).1⟩

/-- C4 (counterexample): updating the status of id 7 in an empty manifest
succeeds with no error and changes nothing — the claim demands a not-found
failure, but the code runs a plain SQL UPDATE and never inspects the
affected-row count. -/
theorem C4_counterexample :
    UpdateFileStatus ⟨[], 1⟩ 7 true "u" "s" 0 = .ok ⟨[], 1⟩ := by
  decide

/-- C4 (amended): `UpdateFileStatus` never fails on a missing id — when no
row carries the id it is a no-op; when a row carries the id, that row's
processed, uploadedURL and summary are set to the given values and
uploadTime is stamped with the current time; rows with other ids are
untouched. -/
theorem C4_amended (m : Manifest) (id : Int) (p : Bool) (u s : String)
    (now : Int) :
    UpdateFileStatus m id p u s now =
      .ok { m with rows := updateRows m.rows id p u s now } ∧
    ((∀ r ∈ m.rows, r.id ≠ id) → updateRows m.rows id p u s now = m.rows) ∧
    (∀ r ∈ m.rows, r.id = id →
      { r with
        processed := p,
        uploaded_url := some u,
        upload_time := some now,
        summary := some s } ∈ updateRows m.rows id p u s now) ∧
    (∀ r ∈ m.rows, r.id ≠ id → r ∈ updateRows m.rows id p u s now) := by
  refine ⟨rfl, ?_, ?_, ?_⟩
  · intro h
    unfold updateRows
    have : m.rows.map (fun r =>
        if r.id = id then
          { r with
            processed := p,
            uploaded_url := some u,
            upload_time := some now,
            summary := some s }
        else r) = m.rows.map (fun r => r) := by
      apply List.map_congr_left
      intro r hr
      simp [h r hr]
    rw [this, List.map_id']
  · intro r hr he
    unfold updateRows
    exact List.mem_map.mpr ⟨r, hr, by simp [he]⟩
  · intro r hr hne
    unfold updateRows
    exact List.mem_map.mpr ⟨r, hr, by simp [hne]⟩

/-- C4 (witness): the amended statement at the one-row manifest `m2val`:
the absent id 99 is a silent no-op, and updating the present id 1 puts the
updated row in the table. -/
theorem C4_witness :
    (∀ r ∈ m2val.rows, r.id ≠ 99) ∧
    updateRows m2val.rows 99 true "u" "s" 0 = m2val.rows ∧
    ({ r1 with
      processed := false,
      uploaded_url := some "u2",
      upload_time := some 9,
      summary := some "s2" } ∈
      updateRows m2val.rows 1 false "u2" "s2" 9) :=
  ⟨by decide, (C4_amended m2val 99 true "u" "s" 0).2.1 (by decide),
    (C4_amended m2val 1 false "u2" "s2" 9).2.2.1 r1 (by decide) (by decide)⟩

/-- C5: upserting the same FileRecord content twice under one path leaves
exactly one row with that path, and its stored field values are the second
insert's values. -/
theorem C5_upsert_idempotent (m : Manifest) (info : FileInfo) :
    (saveFileInfo (saveFileInfo m info) info).rows.filter
      (fun r => r.path = info.Path) = [insertedRow (m.nextId + 1) info] ∧
    (∀ r ∈ (saveFileInfo (saveFileInfo m info) info).rows,
      r.path = info.Path →
        r.relative_path = info.RelativePath ∧ r.size = info.Size ∧
        r.mod_time = info.ModTime ∧ r.is_dir = info.IsDir ∧
        r.content_type = some info.ContentType ∧
        r.sha256 = some info.SHA256) := by
  have h1 := saveFileInfo_filter_path (saveFileInfo m info) info
  have hn : (saveFileInfo m info).nextId = m.nextId + 1 := rfl
  rw [hn] at h1
  refine ⟨h1, ?_⟩
  intro r hr hp
  have hm : r ∈ (saveFileInfo (saveFileInfo m info) info).rows.filter
      (fun r => r.path = info.Path) :=
    List.mem_filter.mpr ⟨hr, by simpa using hp⟩
  rw [h1, List.mem_singleton] at hm
  subst hm
  exact ⟨rfl, rfl, rfl, rfl, rfl, rfl⟩

/-- C5 (witness): the double upsert of `infoA` into the empty store. -/
theorem C5_witness :
    (saveFileInfo (saveFileInfo ⟨[], 1⟩ infoA) infoA).rows.filter
      (fun r => r.path = infoA.Path) = [insertedRow (1 + 1) infoA] :=
  (C5_upsert_idempotent ⟨[], 1⟩ infoA).1

/-- C9: when the `files` table holds no non-directory row, the
`SELECT SUM(size)` aggregate is NULL and scanning it into the `int64`
destination fails, so `GetStats` returns an error rather than a zero-total
statistics map; with at least one non-directory row it succeeds. -/
theorem C9_stats_error (m : Manifest)
    (h : m.rows.filter (fun r => !r.is_dir) = []) :
    GetStats m = .error nullIntScanError ∧
    (∀ m' : Manifest, m'.rows.filter (fun r => !r.is_dir) ≠ [] →
      ∃ st, GetStats m' = .ok st) := by
  constructor
  · unfold GetStats
    rw [h]
    rfl
  · intro m' hne
    unfold GetStats
    cases hl : m'.rows.filter (fun r => !r.is_dir) with
    | nil => exact absurd hl hne
    | cons a as =>
      exact ⟨_, rfl⟩

/-- C9 (witness): the freshly created empty store. -/
theorem C9_witness :
    ((⟨[], 1⟩ : Manifest).rows.filter (fun r => !r.is_dir) = []) ∧
    GetStats ⟨[], 1⟩ = .error nullIntScanError :=
  ⟨by decide, (C9_stats_error ⟨[], 1⟩ (by decide)).1⟩

/-- If the final slash-separated element of the reversed character list
contains no dot, `extRev` yields the empty extension. -/
theorem extRev_no_dot (l : List Char) :
    ∀ suf : List Char, '.' ∉ l.takeWhile (fun c => c ≠ '/') →
      extRev suf l = "" := by
  induction l with
  | nil => intro suf _; rfl
  | cons c rest ih =>
    intro suf h
    by_cases hc : c = '/'
    · simp [extRev, hc]
    · have htw : (c :: rest).takeWhile (fun c => c ≠ '/') =
          c :: rest.takeWhile (fun c => c ≠ '/') := by
        simp [List.takeWhile_cons, hc]
      rw [htw] at h
      have hcd : c ≠ '.' := fun hdot => h (by rw [hdot]; exact List.mem_cons_self _ _)
      have hrest : '.' ∉ rest.takeWhile (fun c => c ≠ '/') := fun hm =>
        h (List.mem_cons_of_mem _ hm)
      have hcd' : ¬ c = '.' := hcd
      simp only [extRev, if_neg hc, if_neg hcd']
      exact ih (c :: suf) hrest

/-- C6 (counterexample): the directory record `/data/archive.old`
(`IsDir = true`) is indexed with `Extension = ".old"` — the claim says the
extension is empty for directories, but the code applies `filepath.Ext` to
the path regardless of `IsDir`. -/
theorem C6_counterexample :
    (IndexFile cfgS [] (some dirRec) 9).map
      (fun i => i.map fun e => (e.1, e.2.Extension)) = .ok [("7", ".old")] ∧
    dirRec.IsDir = true := by
  decide

/-- C6 (amended): `IndexFile` on a non-nil record writes/replaces the
document keyed by the decimal string of the id; its Name is the basename of
the path and its Extension is the lower-cased `filepath.Ext` of the path,
computed identically for files and directories — empty exactly when the
final path element has no dot — and its Summary is non-empty iff summary
indexing is enabled and the record's summary is non-empty. -/
theorem C6_amended (cfg : IndexConfig) (idx : Index) (file : FileStatus)
    (now : Int) :
    IndexFile cfg idx (some file) now =
      .ok (insertDoc idx (toString file.ID) (mkDoc cfg file now)) ∧
    (mkDoc cfg file now).ID = toString file.ID ∧
    (mkDoc cfg file now).Name = goBase file.Path ∧
    (mkDoc cfg file now).Extension = lowerStr (goExt file.Path) ∧
    ('.' ∉ file.Path.data.reverse.takeWhile (fun c => c ≠ '/') →
      (mkDoc cfg file now).Extension = "") ∧
    ((mkDoc cfg file now).Summary ≠ "" ↔
      cfg.IndexSummaries ∧ file.Summary ≠ "") := by
  refine ⟨rfl, rfl, rfl, rfl, ?_, ?_⟩
  · intro h
    have : goExt file.Path = "" := extRev_no_dot _ [] h
    show lowerStr (goExt file.Path) = ""
    rw [this]
    rfl
  · show (if cfg.IndexSummaries ∧ file.Summary ≠ "" then file.Summary
      else "") ≠ "" ↔ cfg.IndexSummaries ∧ file.Summary ≠ ""
    by_cases h : cfg.IndexSummaries ∧ file.Summary ≠ ""
    · rw [if_pos h]
      exact ⟨fun _ => h, fun _ => h.2⟩
    · rw [if_neg h]
      simp [h]

/-- C6 (witness): the amended statement at `noExtRec`, whose path
`/d/README` has no dot in its final element. -/
theorem C6_witness :
    ('.' ∉ noExtRec.Path.data.reverse.takeWhile (fun c => c ≠ '/')) ∧
    (mkDoc cfgS noExtRec 0).Extension = "" :=
  ⟨by decide, (C6_amended cfgS [] noExtRec 0).2.2.2.2.1 (by decide)⟩

/-- C7: with a non-empty query and a field name, `Search` evaluates a match
query scoped to that single field: a document is a hit exactly when the
analyzed query tokens intersect the tokens of the named field — a predicate
depending only on that field's value, so text occurring only in other
fields cannot make a document a hit.  Concretely, the document with summary
"invoice report" and path `/docs/invoice.pdf` is hit by
`FieldName = "Summary", Query = "invoice"` and is not hit by
`FieldName = "Extension", Query = "invoice"`. -/
theorem C7_field_scoped (idx : Index) (req : SearchRequest)
    (h1 : req.Query ≠ "") (h2 : req.FieldName ≠ "") :
    (∀ e, e ∈ searchHits idx req ↔
      e ∈ idx ∧ matchFieldHit req.FieldName req.Query e.2 = true) ∧
    (∀ d d' : FileIndex,
      fieldValue req.FieldName d = fieldValue req.FieldName d' →
      matchFieldHit req.FieldName req.Query d =
        matchFieldHit req.FieldName req.Query d') ∧
    Search invoiceIdx ⟨"invoice", 10, 0, "", false, "Summary"⟩ =
      .ok invoiceIdx ∧
    Search invoiceIdx ⟨"invoice", 10, 0, "", false, "Extension"⟩ = .ok [] := by
  refine ⟨?_, ?_, by decide, by decide⟩
  · intro e
    unfold searchHits
    rw [if_neg h1, if_pos h2]
    exact List.mem_filter
  · intro d d' h
    unfold matchFieldHit fieldTerms
    rw [h]

/-- C7 (witness): the field-scoped hit characterization at the invoice
index and the Summary-restricted request. -/
theorem C7_witness :
    (("invoice" : String) ≠ "") ∧ (("Summary" : String) ≠ "") ∧
    ((("3", mkDoc cfgS invoiceRec 0) ∈
        searchHits invoiceIdx ⟨"invoice", 10, 0, "", false, "Summary"⟩) ↔
      (("3", mkDoc cfgS invoiceRec 0) ∈ invoiceIdx ∧
        matchFieldHit "Summary" "invoice" (mkDoc cfgS invoiceRec 0) = true)) :=
  ⟨by decide, by decide,
    (C7_field_scoped invoiceIdx ⟨"invoice", 10, 0, "", false, "Summary"⟩
      (by decide) (by decide)).1 ("3", mkDoc cfgS invoiceRec 0)⟩

/-- C8: removing a file id is never an error whether or not the document is
indexed — so a second removal in a row cannot error, and is a no-op — and
after removal any search for a term occurring in no remaining document
yields zero hits. -/
theorem C8_remove_idempotent (idx : Index) (id : Int) (term : String) :
    RemoveFile idx id = .ok (deleteDoc idx (toString id)) ∧
    RemoveFile (deleteDoc idx (toString id)) id =
      .ok (deleteDoc idx (toString id)) ∧
    (term ≠ "" →
      (∀ e ∈ deleteDoc idx (toString id), queryStringHit term e.2 = false) →
      Search (deleteDoc idx (toString id)) ⟨term, 10, 0, "", false, ""⟩ =
        .ok []) := by
  refine ⟨rfl, ?_, ?_⟩
  · unfold RemoveFile deleteDoc
    rw [List.filter_filter]
    simp
  · intro ht hterm
    have hfil : (deleteDoc idx (toString id)).filter
        (fun e => queryStringHit term e.2) = [] := by
      apply List.filter_eq_nil_iff.mpr
      intro a ha
      simp [hterm a ha]
    unfold Search searchHits
    simp only [if_neg ht]
    simp [hfil]

/-- C8 (witness): removing document id 1 from the two-document index and
searching for "finance", a term unique to the removed document. -/
theorem C8_witness :
    (("finance" : String) ≠ "") ∧
    (∀ e ∈ deleteDoc idx8 (toString (1 : Int)),
      queryStringHit "finance" e.2 = false) ∧
    Search (deleteDoc idx8 (toString (1 : Int)))
      ⟨"finance", 10, 0, "", false, ""⟩ = .ok [] :=
  ⟨by decide, by decide,
    (C8_remove_idempotent idx8 1 "finance").2.2 (by decide) (by decide)⟩

/-- Committing an empty batch is a no-op. -/
theorem applyBatch_nil (idx : Index) : applyBatch idx [] = idx := rfl

/-- Committing a concatenation of batches is committing them in turn. -/
theorem applyBatch_append (idx : Index) (a b : List (String × FileIndex)) :
    applyBatch idx (a ++ b) = applyBatch (applyBatch idx a) b :=
  List.foldl_append _ _ _ _

/-- A key present in the index is still present after any insertion. -/
theorem insertDoc_mem_keys (idx : Index) (k0 k : String) (d : FileIndex)
    (h : k0 ∈ keys idx) : k0 ∈ keys (insertDoc idx k d) := by
  unfold keys insertDoc
  rw [List.map_append]
  by_cases he : k0 = k
  · subst he
    exact List.mem_append_right _ (by simp)
  · rcases List.mem_map.mp h with ⟨e, he', hfst⟩
    apply List.mem_append_left
    exact List.mem_map.mpr
      ⟨e, List.mem_filter.mpr ⟨he', by simp [hfst, he]⟩, hfst⟩

/-- A key present in the index is still present after a batch commit. -/
theorem applyBatch_mem_keys (ops : List (String × FileIndex)) :
    ∀ (idx : Index) (k0 : String), k0 ∈ keys idx →
      k0 ∈ keys (applyBatch idx ops) := by
  induction ops with
  | nil => intro idx k0 h; exact h
  | cons op ops ih =>
    intro idx k0 h
    exact ih _ _ (insertDoc_mem_keys idx k0 op.1 op.2 h)

/-- Inserting under a key the index does not hold appends the document. -/
theorem keys_insertDoc_fresh (idx : Index) (k : String) (d : FileIndex)
    (h : k ∉ keys idx) : insertDoc idx k d = idx ++ [(k, d)] := by
  unfold insertDoc
  congr 1
  apply List.filter_eq_self.mpr
  intro e he
  by_cases heq : e.1 = k
  · exact absurd (List.mem_map.mpr ⟨e, he, heq⟩) h
  · simp [heq]

/-- Committing operations whose keys are fresh and mutually distinct grows
the document count by exactly the number of operations. -/
theorem applyBatch_length_nodup (ops : List (String × FileIndex)) :
    ∀ idx : Index, (keys idx ++ ops.map Prod.fst).Nodup →
      (applyBatch idx ops).length = idx.length + ops.length := by
  induction ops with
  | nil => intro idx _; simp [applyBatch]
  | cons op ops ih =>
    intro idx h
    have hk : op.1 ∉ keys idx := by
      intro hmem
      rcases List.nodup_append.mp h with ⟨_, _, hdisj⟩
      exact hdisj hmem (List.mem_cons_self _ _)
    show (applyBatch (insertDoc idx op.1 op.2) ops).length = _
    rw [keys_insertDoc_fresh idx op.1 op.2 hk]
    have h2 : (keys (idx ++ [(op.1, op.2)]) ++ ops.map Prod.fst).Nodup := by
      have hkeys : keys (idx ++ [(op.1, op.2)]) = keys idx ++ [op.1] := by
        unfold keys
        rw [List.map_append]
        rfl
      rw [hkeys, ← List.append_cons]
      exact h
    rw [ih _ h2]
    simp
    omega

/-- When every row scans, the build loop stages one document per row,
commits them all (across its batch boundaries), and reports no error. -/
theorem buildLoop_ok (cfg : IndexConfig) (now : Int) (rows : List Row) :
    ∀ (idx : Index) (batch : List (String × FileIndex)) (count : Nat),
      (∀ r ∈ rows, scanOk r = true) →
      buildLoop cfg now rows idx batch count =
        (count + rows.length, none,
          applyBatch idx (batch ++ rows.map (rowOp cfg now))) := by
  induction rows with
  | nil =>
    intro idx batch count _
    simp only [buildLoop, List.map_nil, List.append_nil, List.length_nil,
      Nat.add_zero]
    cases batch with
    | nil => simp [applyBatch]
    | cons b bs => simp
  | cons r rs ih =>
    intro idx batch count h
    have hr : scanOk r = true := h r (List.mem_cons_self _ _)
    have hrs : ∀ x ∈ rs, scanOk x = true :=
      fun x hx => h x (List.mem_cons_of_mem _ hx)
    have harith : count + 1 + rs.length = count + (rs.length + 1) := by omega
    have hlist : batch ++ List.map (rowOp cfg now) (r :: rs) =
        (batch ++ [rowOp cfg now r]) ++ List.map (rowOp cfg now) rs := by
      simp
    simp only [buildLoop, scanRow, hr, if_true]
    by_cases hmod : (count + 1) % batchSize = 0
    · rw [if_pos hmod, ih _ _ _ hrs,
        show (toString (rowFile r).ID, mkDoc cfg (rowFile r) now) =
          rowOp cfg now r from rfl]
      simp only [List.nil_append]
      rw [List.length_cons, harith, hlist]
      simp only [applyBatch_append]
    · rw [if_neg hmod, ih _ _ _ hrs,
        show (toString (rowFile r).ID, mkDoc cfg (rowFile r) now) =
          rowOp cfg now r from rfl]
      rw [List.length_cons, harith, hlist]

/-- C1 (counterexample): a one-record manifest rebuilt into an index that
already holds a document under the stale id "999": BuildIndex returns count
1 with no error, but the stale document survives — BuildIndex never deletes
anything — so GetDocumentCount afterwards is 2, not 1. -/
theorem C1_counterexample :
    (BuildIndex cfgS ⟨[rowOK], 2⟩ staleIdx 0).1 = 1 ∧
    (BuildIndex cfgS ⟨[rowOK], 2⟩ staleIdx 0).2.1 = none ∧
    GetDocumentCount (BuildIndex cfgS ⟨[rowOK], 2⟩ staleIdx 0).2.2 = 2 ∧
    "999" ∈ keys (BuildIndex cfgS ⟨[rowOK], 2⟩ staleIdx 0).2.2 := by
  refine ⟨by decide, by decide, by decide, by decide⟩

/-- C1 (amended): for a manifest all of whose rows scan (uploaded_url and
summary non-NULL), BuildIndex returns N = the number of rows with no error;
every document id already in the index is still there afterwards (stale
documents survive); starting from an EMPTY index with pairwise-distinct row
ids the document count afterwards equals N; and over an empty manifest
BuildIndex returns 0 with no error leaving the index untouched. -/
theorem C1_amended (cfg : IndexConfig) (m : Manifest) (idx : Index)
    (now : Int) (hscan : ∀ r ∈ m.rows, scanOk r = true) :
    (BuildIndex cfg m idx now).1 = m.rows.length ∧
    (BuildIndex cfg m idx now).2.1 = none ∧
    (∀ k ∈ keys idx, k ∈ keys (BuildIndex cfg m idx now).2.2) ∧
    ((m.rows.map fun r => toString r.id).Nodup →
      GetDocumentCount (BuildIndex cfg m ([] : Index) now).2.2 =
        m.rows.length) ∧
    (m.rows = [] → BuildIndex cfg m idx now = (0, none, idx)) := by
  have hperm := List.perm_insertionSort rowIdLe m.rows
  have hscan' : ∀ r ∈ List.insertionSort rowIdLe m.rows, scanOk r = true :=
    fun r hr => hscan r (hperm.mem_iff.mp hr)
  have hlen : (List.insertionSort rowIdLe m.rows).length = m.rows.length :=
    hperm.length_eq
  have hmain := buildLoop_ok cfg now (List.insertionSort rowIdLe m.rows)
    idx [] 0 hscan'
  have hmain0 := buildLoop_ok cfg now (List.insertionSort rowIdLe m.rows)
    ([] : Index) [] 0 hscan'
  refine ⟨?_, ?_, ?_, ?_, ?_⟩
  · show (buildLoop cfg now (List.insertionSort rowIdLe m.rows) idx [] 0).1 = _
    rw [hmain]
    simp [hlen]
  · show (buildLoop cfg now (List.insertionSort rowIdLe m.rows) idx [] 0).2.1 = _
    rw [hmain]
  · intro k hk
    show k ∈ keys (buildLoop cfg now (List.insertionSort rowIdLe m.rows) idx [] 0).2.2
    rw [hmain]
    exact applyBatch_mem_keys _ idx k hk
  · intro hnd
    show (buildLoop cfg now (List.insertionSort rowIdLe m.rows)
      ([] : Index) [] 0).2.2.length = _
    rw [hmain0]
    have hfst : ((List.insertionSort rowIdLe m.rows).map
        (rowOp cfg now)).map Prod.fst =
        (List.insertionSort rowIdLe m.rows).map fun r => toString r.id := by
      rw [List.map_map]
      rfl
    have hnd' : (((List.insertionSort rowIdLe m.rows).map
        (rowOp cfg now)).map Prod.fst).Nodup := by
      rw [hfst]
      exact ((hperm.map fun r => toString r.id).nodup_iff).mpr hnd
    have := applyBatch_length_nodup
      ((List.insertionSort rowIdLe m.rows).map (rowOp cfg now))
      ([] : Index) (by simpa [keys] using hnd')
    simpa [hlen] using this
  · intro hnil
    show buildLoop cfg now (List.insertionSort rowIdLe m.rows) idx [] 0 = _
    rw [hnil]
    rfl

/-- C1 (witness): the amended statement at the one-row manifest and the
stale index, and the empty-index parity at the same manifest. -/
theorem C1_witness :
    (∀ r ∈ (⟨[rowOK], 2⟩ : Manifest).rows, scanOk r = true) ∧
    (BuildIndex cfgS ⟨[rowOK], 2⟩ staleIdx 0).1 =
      (⟨[rowOK], 2⟩ : Manifest).rows.length ∧
    GetDocumentCount (BuildIndex cfgS ⟨[rowOK], 2⟩ ([] : Index) 0).2.2 =
      (⟨[rowOK], 2⟩ : Manifest).rows.length :=
  ⟨by decide, (C1_amended cfgS ⟨[rowOK], 2⟩ staleIdx 0 (by decide)).1,
    (C1_amended cfgS ⟨[rowOK], 2⟩ staleIdx 0 (by decide)).2.2.2.1 (by decide)⟩

/-- A row that fails the scan yields the scan error. -/
theorem scanRow_err (r : Row) (h : scanOk r = false) :
    scanRow r = .error (scanErrMsg r) := by
  simp [scanRow, h]

/-- The build loop over scannable rows followed by an unscannable row:
it returns the running count of STAGED rows together with the scan error,
and commits exactly the batches completed before the failure — the current
partially filled batch is lost. -/
theorem buildLoop_fail (cfg : IndexConfig) (now : Int) (good : List Row) :
    ∀ (bad : Row) (rest : List Row) (idx : Index)
      (batch : List (String × FileIndex)) (count : Nat),
      batch.length = count % batchSize →
      (∀ r ∈ good, scanOk r = true) → scanOk bad = false →
      buildLoop cfg now (good ++ bad :: rest) idx batch count =
        (count + good.length, some (scanErrMsg bad),
          applyBatch idx ((batch ++ good.map (rowOp cfg now)).take
            (batch.length + good.length -
              (count + good.length) % batchSize))) := by
  induction good with
  | nil =>
    intro bad rest idx batch count hb _ hbad
    simp only [List.nil_append, buildLoop, scanRow, hbad, Bool.false_eq_true,
      if_false, List.length_nil, Nat.add_zero, List.map_nil, List.append_nil]
    rw [hb, Nat.sub_self, List.take_zero]
    rfl
  | cons g gs ih =>
    intro bad rest idx batch count hb hg hbad
    have hgood : scanOk g = true := hg g (List.mem_cons_self _ _)
    have hgs : ∀ x ∈ gs, scanOk x = true :=
      fun x hx => hg x (List.mem_cons_of_mem _ hx)
    have hbs : batchSize = 100 := rfl
    simp only [List.cons_append, buildLoop, scanRow, hgood, if_true,
      List.append_eq]
    rw [show (toString (rowFile g).ID, mkDoc cfg (rowFile g) now) =
      rowOp cfg now g from rfl]
    have harith : count + 1 + gs.length = count + (gs.length + 1) := by omega
    by_cases hmod : (count + 1) % batchSize = 0
    · rw [if_pos hmod]
      have hb2 : ([] : List (String × FileIndex)).length =
          (count + 1) % batchSize := by simp [hmod]
      rw [ih bad rest (applyBatch idx (batch ++ [rowOp cfg now g])) []
        (count + 1) hb2 hgs hbad]
      simp only [List.nil_append, List.length_nil, Nat.zero_add,
        List.length_cons, List.map_cons]
      rw [harith]
      have hX2 : (count + (gs.length + 1)) % batchSize =
          gs.length % batchSize := by
        rw [hbs] at hmod ⊢
        omega
      rw [hX2]
      have hamount : batch.length + (gs.length + 1) -
          gs.length % batchSize =
          (batch ++ [rowOp cfg now g]).length +
            (gs.length - gs.length % batchSize) := by
        have := Nat.mod_le gs.length batchSize
        simp only [List.length_append, List.length_cons, List.length_nil]
        omega
      rw [hamount]
      rw [show batch ++ rowOp cfg now g :: List.map (rowOp cfg now) gs =
        (batch ++ [rowOp cfg now g]) ++ List.map (rowOp cfg now) gs from
        by simp]
      rw [List.take_append]
      simp only [applyBatch_append]
    · rw [if_neg hmod]
      have hb2 : (batch ++ [rowOp cfg now g]).length =
          (count + 1) % batchSize := by
        simp only [List.length_append, List.length_cons, List.length_nil]
        rw [hbs] at hmod ⊢
        rw [hbs] at hb
        omega
      rw [ih bad rest idx (batch ++ [rowOp cfg now g]) (count + 1)
        hb2 hgs hbad]
      simp only [List.length_append, List.length_cons, List.length_nil,
        List.map_cons]
      rw [harith]
      rw [show batch ++ rowOp cfg now g :: List.map (rowOp cfg now) gs =
        (batch ++ [rowOp cfg now g]) ++ List.map (rowOp cfg now) gs from
        by simp]
      have hamount : batch.length + (0 + 1) + gs.length -
          (count + (gs.length + 1)) % batchSize =
          batch.length + (gs.length + 1) -
            (count + (gs.length + 1)) % batchSize := by
        omega
      rw [hamount]

/-- C3 (counterexample): a two-row manifest whose second row has a NULL
summary (as every freshly scanned row does): the scan of row 2 fails after
row 1 was staged, BuildIndex returns count 1 with the error, yet zero
documents were committed — the returned count exceeds the committed count. -/
theorem C3_counterexample :
    (BuildIndex cfgS ⟨[rowOK, rowBad], 3⟩ [] 0).1 = 1 ∧
    (BuildIndex cfgS ⟨[rowOK, rowBad], 3⟩ [] 0).2.1 =
      some (scanErrMsg rowBad) ∧
    GetDocumentCount (BuildIndex cfgS ⟨[rowOK, rowBad], 3⟩ [] 0).2.2 = 0 :=
  ⟨by decide, by decide, by decide⟩

/-- C3 (amended): when BuildIndex fails at a row scan mid-stream, the count
it returns with the error is the number of rows successfully converted and
STAGED before the failure — which can exceed the committed count by up to
`batchSize - 1` — and the index afterwards contains exactly the documents
of the fully committed batches (the first `count - count % batchSize`
staged documents), never part of an uncommitted batch. -/
theorem C3_amended (cfg : IndexConfig) (m : Manifest) (idx : Index)
    (now : Int) (good : List Row) (bad : Row) (rest : List Row)
    (hs : List.insertionSort rowIdLe m.rows = good ++ bad :: rest)
    (hg : ∀ r ∈ good, scanOk r = true) (hb : scanOk bad = false) :
    BuildIndex cfg m idx now =
      (good.length, some (scanErrMsg bad),
        applyBatch idx ((good.map (rowOp cfg now)).take
          (good.length - good.length % batchSize))) := by
  show buildLoop cfg now (List.insertionSort rowIdLe m.rows) idx [] 0 = _
  rw [hs]
  rw [buildLoop_fail cfg now good bad rest idx [] 0 (by simp) hg hb]
  simp only [List.nil_append, List.length_nil, Nat.zero_add]

/-- C3 (witness): the amended statement at the concrete two-row manifest:
count 1 staged, error on row 2, nothing committed (1 < batchSize). -/
theorem C3_witness :
    (List.insertionSort rowIdLe (⟨[rowOK, rowBad], 3⟩ : Manifest).rows =
      [rowOK] ++ rowBad :: []) ∧
    BuildIndex cfgS ⟨[rowOK, rowBad], 3⟩ [] 0 =
      ([rowOK].length, some (scanErrMsg rowBad),
        applyBatch [] (([rowOK].map (rowOp cfgS 0)).take
          ([rowOK].length - [rowOK].length % batchSize))) :=
  ⟨by decide, C3_amended cfgS ⟨[rowOK, rowBad], 3⟩ [] 0 [rowOK] rowBad []
    (by decide) (by decide) (by decide)⟩

/-- A `%`-wildcard pattern containing nothing else accepts every text:
the empty-pattern acceptor succeeds on the empty suffix. -/
theorem likeStar_empty (t : List Char) : likeStar (likeMatch []) t = true := by
  induction t with
  | nil => rfl
  | cons c cs ih => simp only [likeStar, ih, Bool.or_true]

/-- `LIKE "%"` matches everything. -/
theorem likeMatch_pct (t : List Char) : likeMatch ['%'] t = true := by
  show likeStar (likeMatch []) t = true
  exact likeStar_empty t

/-- A LIKE pattern free of `%` and `_`, followed by a final `%`, matches a
text exactly when the pattern is a starts-with match on the text, comparing
after ASCII lower-casing both sides (SQLite's default case folding). -/
theorem likeMatch_no_wild :
    ∀ pat : List Char, (∀ c ∈ pat, c ≠ '%' ∧ c ≠ '_') →
      ∀ text : List Char, likeMatch (pat ++ ['%']) text =
        listStarts (pat.map lowerChar) (text.map lowerChar) := by
  intro pat
  induction pat with
  | nil =>
    intro _ text
    simp only [List.nil_append, List.map_nil]
    rw [likeMatch_pct]
    rfl
  | cons p ps ih =>
    intro hw text
    have hp : p ≠ '%' := (hw p (List.mem_cons_self _ _)).1
    have hp2 : p ≠ '_' := (hw p (List.mem_cons_self _ _)).2
    have hws : ∀ c ∈ ps, c ≠ '%' ∧ c ≠ '_' :=
      fun c hc => hw c (List.mem_cons_of_mem _ hc)
    cases text with
    | nil => simp [likeMatch, hp, listStarts]
    | cons c cs =>
      simp only [List.cons_append, likeMatch, if_neg hp, if_neg hp2,
        List.map_cons, List.append_eq]
      rw [ih hws cs]
      rfl

/-- Appending the `/` never introduces a wildcard. -/
theorem dirSlash_no_wild (directory : String)
    (hw : ∀ c ∈ directory.data, c ≠ '%' ∧ c ≠ '_') :
    ∀ c ∈ (dirSlash directory).data, c ≠ '%' ∧ c ≠ '_' := by
  intro c hc
  unfold dirSlash at hc
  split at hc
  · exact hw c hc
  · rw [String.data_append] at hc
    rcases List.mem_append.mp hc with h1 | h1
    · exact hw c h1
    · have hc2 : c = '/' := by simpa using h1
      subst hc2
      exact ⟨by decide, by decide⟩

/-- The characters of the LIKE pattern `GetFilesInDirectory` builds. -/
theorem dirPattern_data (directory : String) :
    (dirPattern directory).data = (dirSlash directory).data ++ ['%'] := by
  unfold dirPattern
  rw [String.data_append]

/-- C10 (counterexample): SQLite LIKE compares ASCII letters
case-insensitively, so `GetFilesInDirectory` for directory `/Foo` returns
the row with path `/foo/x.txt` although that path does not start with
`/Foo/` — the claim's "exactly the records whose path starts with
directory followed by /" fails even for wildcard-free directories. -/
theorem C10_counterexample :
    (∀ c ∈ ("/Foo" : String).data, c ≠ '%' ∧ c ≠ '_') ∧
    GetFilesInDirectory ⟨[rowFoo], 2⟩ "/Foo" = [rowFoo] ∧
    listStarts "/Foo/".data rowFoo.path.data = false :=
  ⟨by decide, by decide, by decide⟩

/-- C10 (amended): `GetFilesInDirectory` matches with the LIKE pattern
directory + "/" (appended only when missing) + "%"; for a directory free of
`%` and `_` the result is exactly the rows whose path starts with
directory + "/" COMPARING ASCII LETTERS CASE-INSENSITIVELY, ordered by
path ascending; and a `_` or `%` in the directory acts as a wildcard, so
rows not lexically under the directory can be returned (e.g. directory
`/a_b` returns the row with path `/axb/f.txt`). -/
theorem C10_amended (m : Manifest) (directory : String)
    (hw : ∀ c ∈ directory.data, c ≠ '%' ∧ c ≠ '_') :
    (∀ r, r ∈ GetFilesInDirectory m directory ↔
      r ∈ m.rows ∧
        listStarts ((dirSlash directory).data.map lowerChar)
          (r.path.data.map lowerChar) = true) ∧
    List.Sorted rowPathLe (GetFilesInDirectory m directory) ∧
    GetFilesInDirectory ⟨[rowWild], 2⟩ "/a_b" = [rowWild] ∧
    listStarts "/a_b/".data rowWild.path.data = false := by
  refine ⟨?_, ?_, by decide, by decide⟩
  · intro r
    unfold GetFilesInDirectory
    rw [(List.perm_insertionSort rowPathLe _).mem_iff, List.mem_filter,
      dirPattern_data,
      likeMatch_no_wild (dirSlash directory).data
        (dirSlash_no_wild directory hw) r.path.data]
  · exact List.sorted_insertionSort rowPathLe _

/-- C10 (witness): the amended characterization at the one-row manifest
and the wildcard-free directory `/foo`. -/
theorem C10_witness :
    (∀ c ∈ ("/foo" : String).data, c ≠ '%' ∧ c ≠ '_') ∧
    (rowFoo ∈ GetFilesInDirectory ⟨[rowFoo], 2⟩ "/foo" ↔
      rowFoo ∈ (⟨[rowFoo], 2⟩ : Manifest).rows ∧
        listStarts ((dirSlash "/foo").data.map lowerChar)
          (rowFoo.path.data.map lowerChar) = true) :=
  ⟨by decide, (C10_amended ⟨[rowFoo], 2⟩ "/foo" (by decide)).1 rowFoo⟩

end Archiver
